import Mathlib

set_option autoImplicit false

/-!
Verification of the incremental execution and caching engine of the PyMD
renderer (`pymd/code_executor.py`).  The Python class `CodeExecutor` is
shallowly embedded: its mutable object state becomes the structure
`CodeExecutor`, Python dicts (which preserve insertion order and have unique
keys) become association lists manipulated by `aGet`/`aSet`/`aUpdate`, the
md5 cache hash is modelled by its preimage (md5 collisions are out of scope),
wall-clock times are abstract rationals supplied per call, and the dynamic
evaluation `exec(code, exec_globals)` is abstracted by a `Block` carrying the
source text together with a deterministic state transformer on the globals
dict that either succeeds or fails with partial effects.
-/

namespace PyMD

/-- Membership test of a pattern at the head of a character list;
models Python `str.startswith` on the underlying characters. -/
def isPrefixB : List Char → List Char → Bool
  | [], _ => true
  | _ :: _, [] => false
  | p :: ps, c :: cs => p == c && isPrefixB ps cs

/-- Substring containment: models the Python `pat in s` test
for the non-empty patterns used by the executor. -/
def hasSubseq (pat : List Char) : List Char → Bool
  | [] => isPrefixB pat []
  | c :: cs => isPrefixB pat (c :: cs) || hasSubseq pat cs

/-- The newline character used by `code.split` in the source. -/
def nlChar : Char := Char.ofNat 10

/-- Models Python `code.split` on newline: splitting an empty
string yields one empty piece, and separators delimit pieces. -/
def splitLinesAux : List Char → List (List Char)
  | [] => [[]]
  | c :: cs =>
    if c == nlChar then [] :: splitLinesAux cs
    else
      match splitLinesAux cs with
      | [] => [[c]]
      | l :: ls => (c :: l) :: ls

/-- The lines of a code block, as in `code.split` over newline. -/
def codeLines (code : String) : List (List Char) := splitLinesAux code.data

/-- Characters stripped by Python `str.strip` (whitespace). -/
def isWsChar (c : Char) : Bool :=
  c == ' ' || c == '\t' || c == '\n' || c == '\r'

/-- Models Python `str.strip`. -/
def trimChars (cs : List Char) : List Char :=
  ((cs.dropWhile isWsChar).reverse.dropWhile isWsChar).reverse

/-- The text that the source scans for to detect a blocking-input call. -/
def inputCallPat : List Char := "input(".data

/-- The annotation tag holding a mock value for a blocking-input call. -/
def inputMockTag : List Char := "# input:".data

/-- The characters following the first occurrence of `pat`, or `[]` when
`pat` does not occur; used for Python split-and-index element access. -/
def afterFirstPat (pat : List Char) : List Char → List Char
  | [] => []
  | c :: cs =>
    if isPrefixB pat (c :: cs) then (c :: cs).drop pat.length
    else afterFirstPat pat cs

/-- The characters preceding the first occurrence of `pat` (all of them
when `pat` does not occur). -/
def beforeFirstPat (pat : List Char) : List Char → List Char
  | [] => []
  | c :: cs =>
    if isPrefixB pat (c :: cs) then []
    else c :: beforeFirstPat pat cs

/-- Models `line.split(tag)[1].strip()` from `_parse_input_mocks`: the text
strictly between the first and second occurrence of the tag, stripped. -/
def mockValueOf (line : List Char) : List Char :=
  trimChars (beforeFirstPat inputMockTag (afterFirstPat inputMockTag line))

/-- Line-by-line scan of `_parse_input_mocks`: a line holding a
blocking-input call with the annotation registers the annotated literal, a
line holding the call without the annotation registers an empty placeholder,
any other line registers nothing.  The Python version stores these in a dict
keyed by consecutive integers, i.e. an ordered list of values. -/
def parseMockLines : List (List Char) → List String
  | [] => []
  | line :: rest =>
    if hasSubseq inputCallPat line && hasSubseq inputMockTag line then
      String.mk (mockValueOf line) :: parseMockLines rest
    else if hasSubseq inputCallPat line then
      "" :: parseMockLines rest
    else
      parseMockLines rest

/-- `CodeExecutor._parse_input_mocks`. -/
def parse_input_mocks (code : String) : List String :=
  parseMockLines (codeLines code)

/-- The `input_line_found` scan from `execute_code` (lines 268-273): is
there a line with a blocking-input call but no mock annotation? -/
def inputLineFound (code : String) : Bool :=
  (codeLines code).any fun l =>
    hasSubseq inputCallPat l && !hasSubseq inputMockTag l

/-- The guard of the `RuntimeError` raised by `execute_code` for a
blocking-input call with no mock value (lines 262-277): the code contains
the call text, the parsed mock table is empty, and some line holds the call
without an annotation. -/
def inputValidationFails (code : String) : Bool :=
  hasSubseq inputCallPat code.data
    && (parse_input_mocks code).isEmpty
    && inputLineFound code

/-- The watch-list of `_detect_heavy_imports`. -/
def heavyLibs : List (List Char) :=
  ["matplotlib".data, "pandas".data, "numpy".data, "scipy".data,
    "sklearn".data, "tensorflow".data, "torch".data, "plotly".data]

/-- The two line prefixes `_detect_heavy_imports` looks for. -/
def importLinePat : List Char := "import ".data

/-- The second prefix recognised by `_detect_heavy_imports`. -/
def fromLinePat : List Char := "from ".data

/-- One stripped line qualifies as a heavy import line. -/
def isHeavyImportLine (l : List Char) : Bool :=
  let t := trimChars l
  (isPrefixB importLinePat t || isPrefixB fromLinePat t)
    && heavyLibs.any fun lib => hasSubseq lib t

/-- `CodeExecutor._detect_heavy_imports`: the stripped lines that start
with an import keyword and mention a watched library. -/
def detect_heavy_imports (code : String) : List String :=
  (((codeLines code).map trimChars).filter fun t =>
      (isPrefixB importLinePat t || isPrefixB fromLinePat t)
        && heavyLibs.any fun lib => hasSubseq lib t).map String.mk

/-- A dynamically typed Python value.  `vobj` stands for an arbitrary
object: its boolean says whether `str(value)` succeeds (the snapshot
builder drops values whose stringification raises). -/
inductive Value where
  | vint : Int → Value
  | vstr : String → Value
  | vbuiltins : Value
  | vmock : List String → Value
  | vobj : Nat → Bool → Value
deriving DecidableEq

/-- Whether the best-effort `str(value)` conversion succeeds. -/
def Value.strOk : Value → Bool
  | .vobj _ ok => ok
  | _ => true

/-- A Python dict with string keys: an insertion-ordered association list
with (invariantly) unique keys. -/
abbrev Dict := List (String × Value)

/-- Dict lookup, `d[k]` / `k in d`. -/
def aGet {κ α : Type} [DecidableEq κ] : List (κ × α) → κ → Option α
  | [], _ => none
  | (k, v) :: rest, key => if k = key then some v else aGet rest key

/-- Dict store, `d[k] = v`: an existing key keeps its position, a new key
is appended at the end — Python dict insertion-order semantics. -/
def aSet {κ α : Type} [DecidableEq κ] : List (κ × α) → κ → α → List (κ × α)
  | [], key, val => [(key, val)]
  | (k, v) :: rest, key, val =>
    if k = key then (k, val) :: rest else (k, v) :: aSet rest key val

/-- Dict merge, `d.update(other)`: name-union, right-biased. -/
def aUpdate {κ α : Type} [DecidableEq κ]
    (d : List (κ × α)) (other : List (κ × α)) : List (κ × α) :=
  other.foldl (fun acc kv => aSet acc kv.1 kv.2) d

/-- `CodeExecutor._get_variable_snapshot`: keep only the bindings whose
value stringifies without raising. -/
def get_variable_snapshot («variables» : Dict) : Dict :=
  «variables».filter fun kv => kv.2.strOk

/-- The comparison used by `sorted(snapshot.items())`: Python compares the
pairs lexicographically and dict keys are unique, so the key alone decides. -/
def itemLe (a b : String × Value) : Prop := a.1 ≤ b.1

instance : DecidableRel itemLe := fun a b =>
  inferInstanceAs (Decidable (a.1 ≤ b.1))

instance : IsTotal (String × Value) itemLe := ⟨fun a b => le_total a.1 b.1⟩

instance : IsTrans (String × Value) itemLe :=
  ⟨fun _ _ _ h1 h2 => le_trans h1 h2⟩

/-- The strict version of `itemLe`, used to show that sorting items of a
dict (whose keys are unique) is insensitive to the input order. -/
def itemLt (a b : String × Value) : Prop := a.1 < b.1

instance : IsAntisymm (String × Value) itemLt :=
  ⟨fun _ _ h1 h2 => absurd h2 (lt_asymm h1)⟩

/-- `sorted(snapshot.items())`. -/
def sortItems (snap : Dict) : Dict := List.insertionSort itemLe snap

/-- A cache key.  `_get_code_hash` returns
`md5(code + str(sorted(snapshot.items())))`; we model the hash by its
preimage, so `auto` carries the code text and the sorted snapshot.  `given`
is a caller-provided key string (as passed by the renderer). -/
inductive CacheKey where
  | auto : String → Dict → CacheKey
  | given : String → CacheKey
deriving DecidableEq

/-- `CodeExecutor._get_code_hash`. -/
def get_code_hash (code : String) (variables_snapshot : Dict) : CacheKey :=
  CacheKey.auto code (sortItems variables_snapshot)

/-- The `execution_stats` dict of the executor. -/
structure Stats where
  total_executions : Nat
  cache_hits : Nat
  cache_misses : Nat
  total_execution_time : Rat
  average_execution_time : Rat
deriving DecidableEq

/-- The zeroed statistics installed by `__init__` and `clear_cache`. -/
def initStats : Stats :=
  { total_executions := 0, cache_hits := 0, cache_misses := 0,
    total_execution_time := 0, average_execution_time := 0 }

/-- The result dict built by `execute_code`. -/
structure ExecResult where
  success : Bool
  output : String
  error : String
  «variables» : Dict
  cache_key : CacheKey
  execution_time : Rat
  was_cached : Bool
  heavy_imports : List String
deriving DecidableEq

/-- The outcome of `exec(code, exec_globals)`: the final globals dict, the
captured stdout text, and on failure additionally the traceback text.  An
exception leaves the partial mutations of the globals and partial output
visible, exactly as in Python. -/
inductive RunOutcome where
  | ok : Dict → String → RunOutcome
  | err : Dict → String → String → RunOutcome
deriving DecidableEq

/-- The globals dict an evaluation ended with, success or failure. -/
def RunOutcome.globalsOf : RunOutcome → Dict
  | .ok g _ => g
  | .err g _ _ => g

/-- A script block: its source text plus the (deterministic) semantics of
evaluating that text against a globals dict. -/
structure Block where
  code : String
  run : Dict → RunOutcome

/-- The mutable state of one `CodeExecutor` instance. -/
structure CodeExecutor where
  «variables» : Dict
  code_cache : List (CacheKey × ExecResult)
  max_cache_size : Nat
  execution_stats : Stats
  block_history : List (Option (Nat × String))
  variables_checkpoints : List (Nat × Dict)

/-- `CodeExecutor.__init__`. -/
def initExecutor : CodeExecutor :=
  { «variables» := [], code_cache := [], max_cache_size := 100,
    execution_stats := initStats, block_history := [],
    variables_checkpoints := [] }

/-- `CodeExecutor._deep_copy_variables`: best-effort deep clone of every
binding, falling back to aliasing; on pure values both branches return the
value itself, so in this embedding the copy is the dict itself. -/
def deep_copy_variables (st : CodeExecutor) : Dict := st.«variables»

/-- `CodeExecutor.restore_variables`: clear, then repopulate from the
checkpoint (again cloning each value best-effort). -/
def restore_variables (st : CodeExecutor) («variables» : Dict) : CodeExecutor :=
  { st with «variables» := «variables» }

/-- `CodeExecutor.save_checkpoint`. -/
def save_checkpoint (st : CodeExecutor) (block_index : Nat) : CodeExecutor :=
  { st with
    variables_checkpoints :=
      aSet st.variables_checkpoints block_index (deep_copy_variables st) }

/-- `CodeExecutor.restore_checkpoint`: the returned boolean says whether a
checkpoint was present at the index. -/
def restore_checkpoint (st : CodeExecutor) (block_index : Nat) :
    Bool × CodeExecutor :=
  match aGet st.variables_checkpoints block_index with
  | some snap => (true, restore_variables st snap)
  | none => (false, st)

/-- `CodeExecutor.clear_cache`: drops the result cache, zeroes the stats,
clears the block history and the checkpoints; `«variables»` is untouched. -/
def clear_cache (st : CodeExecutor) : CodeExecutor :=
  { st with
    code_cache := [],
    execution_stats := initStats,
    block_history := [],
    variables_checkpoints := [] }

/-- `CodeExecutor.get_execution_stats`. -/
def get_execution_stats (st : CodeExecutor) : Stats := st.execution_stats

/-- `CodeExecutor._manage_cache_size`: when the cache exceeds its capacity,
delete the oldest `size - capacity/2` entries in insertion order. -/
def manage_cache_size (max_cache_size : Nat)
    (cache : List (CacheKey × ExecResult)) : List (CacheKey × ExecResult) :=
  if cache.length > max_cache_size then
    cache.drop (cache.length - max_cache_size / 2)
  else cache

/-- The statistics update on a cache miss (lines 296-304 and 317-326):
the elapsed time is accumulated and the average recomputed. -/
def missStats (s : Stats) (elapsed : Rat) : Stats :=
  { total_executions := s.total_executions + 1,
    cache_hits := s.cache_hits,
    cache_misses := s.cache_misses + 1,
    total_execution_time := s.total_execution_time + elapsed,
    average_execution_time :=
      (s.total_execution_time + elapsed) /
        ((s.total_executions + 1 : Nat) : Rat) }

/-- The statistics update on a cache hit (lines 217-219): only the two
counters move; the timers and the average are not recomputed. -/
def hitStats (s : Stats) : Stats :=
  { s with
    cache_hits := s.cache_hits + 1,
    total_executions := s.total_executions + 1 }

/-- The filter applied to the post-exec globals before merging them back
into `«variables»` (lines 287-288): drop dunder names and the injected
mock binding named input. -/
def keepVar (kv : String × Value) : Bool :=
  !(isPrefixB "__".data kv.1.data) && kv.1 != "input"

/-- The construction of `exec_globals` (lines 253-265): builtins plus the
persistent «variables», then the custom globals of the caller, then — when the
code contains a blocking-input call and the parsed mock table is non-empty —
the injected mock binding. -/
def mkExecGlobals («variables» : Dict) (code : String)
    (customGlobalsOpt : Option Dict) : Dict :=
  let eg := aUpdate [("__builtins__", Value.vbuiltins)] «variables»
  let eg :=
    match customGlobalsOpt with
    | some cg => aUpdate eg cg
    | none => eg
  if hasSubseq inputCallPat code.data
      && !(parse_input_mocks code).isEmpty then
    aSet eg "input" (Value.vmock (parse_input_mocks code))
  else eg

/-- The message of the validation `RuntimeError` (line 276), abridged. -/
def inputMockErrMsg : String := "input() function found without mock value"

/-- The result dict populated on the success path (lines 283-296). -/
def okResult (st : CodeExecutor) (blk : Block) (elapsed : Rat)
    (key : CacheKey) (g : Dict) (out : String) : ExecResult :=
  { success := true, output := out, error := "",
    «variables» := aUpdate st.«variables» (g.filter keepVar),
    cache_key := key, execution_time := elapsed, was_cached := false,
    heavy_imports := detect_heavy_imports blk.code }

/-- The result dict populated on the failure path (lines 310-318). -/
def errResult (st : CodeExecutor) (blk : Block) (elapsed : Rat)
    (key : CacheKey) (out msg : String) : ExecResult :=
  { success := false, output := out, error := msg,
    «variables» := st.«variables»,
    cache_key := key, execution_time := elapsed, was_cached := false,
    heavy_imports := detect_heavy_imports blk.code }

/-- The state mutation shared by every miss path: store the new «variables»,
cache the result under the key, trim the cache, account the miss. -/
def finishMiss (st : CodeExecutor) (newVars : Dict) (key : CacheKey)
    (result : ExecResult) (elapsed : Rat) : CodeExecutor :=
  { st with
    «variables» := newVars,
    code_cache :=
      manage_cache_size st.max_cache_size (aSet st.code_cache key result),
    execution_stats := missStats st.execution_stats elapsed }

/-- The body of `execute_code` past the cache lookup: validation, then
evaluation; a success merges the filtered globals back into `«variables»`
and snapshots them into the result, any failure is caught and leaves
`«variables»` untouched (the merge on line 289 is skipped); both outcomes
are cached and accounted as misses. -/
def missStep (st : CodeExecutor) (blk : Block) (elapsed : Rat)
    (key : CacheKey) (customGlobalsOpt : Option Dict) :
    ExecResult × CodeExecutor :=
  let heavy := detect_heavy_imports blk.code
  if inputValidationFails blk.code then
    let result : ExecResult :=
      { success := false, output := "", error := inputMockErrMsg,
        «variables» := st.«variables», cache_key := key,
        execution_time := elapsed, was_cached := false,
        heavy_imports := heavy }
    (result, finishMiss st st.«variables» key result elapsed)
  else
    match blk.run (mkExecGlobals st.«variables» blk.code customGlobalsOpt) with
    | .ok g out =>
      let newVars := aUpdate st.«variables» (g.filter keepVar)
      let result : ExecResult :=
        { success := true, output := out, error := "",
          «variables» := newVars, cache_key := key,
          execution_time := elapsed, was_cached := false,
          heavy_imports := heavy }
      (result, finishMiss st newVars key result elapsed)
    | .err _ out msg =>
      let result : ExecResult :=
        { success := false, output := out, error := msg,
          «variables» := st.«variables», cache_key := key,
          execution_time := elapsed, was_cached := false,
          heavy_imports := heavy }
      (result, finishMiss st st.«variables» key result elapsed)

/-- The cache-hit branch of `execute_code` (lines 211-224): merge the
cached post-state into `«variables»` by `dict.update`, bump the hit
counters, return the cached result (a defensive copy in Python; equality
here). -/
def hitStep (st : CodeExecutor) (cached : ExecResult) :
    ExecResult × CodeExecutor :=
  (cached,
    { st with
      «variables» := aUpdate st.«variables» cached.«variables»,
      execution_stats := hitStats st.execution_stats })

/-- The key `execute_code` uses: the key supplied by the caller when given, otherwise
the hash of the code and the current variable snapshot. -/
def computeKey (st : CodeExecutor) (blk : Block)
    (cacheKeyOpt : Option CacheKey) : CacheKey :=
  match cacheKeyOpt with
  | some k => k
  | none => get_code_hash blk.code (get_variable_snapshot st.«variables»)

/-- `CodeExecutor.execute_code`.  `elapsed` is the wall-clock time the
evaluation takes (the `time.time()` difference).  The function is total:
validation and evaluation failures are captured into the result, exactly
as the Python `try`/`except` does. -/
def execute_code (st : CodeExecutor) (blk : Block) (elapsed : Rat)
    (cacheKeyOpt : Option CacheKey) (customGlobalsOpt : Option Dict) :
    ExecResult × CodeExecutor :=
  let key := computeKey st blk cacheKeyOpt
  match aGet st.code_cache key with
  | some cached => hitStep st cached
  | none => missStep st blk elapsed key customGlobalsOpt

/-! ### Sample blocks used as concrete inputs -/

/-- A block that binds a fresh name: `exec` adds `x` to the globals and the
success path merges it into the persistent environment. -/
def xBlk : Block :=
  { code := "x = 5", run := fun g => .ok (aSet g "x" (Value.vint 5)) "" }

/-- A pure output block: the globals come back unchanged. -/
def printBlk : Block :=
  { code := "print(1)", run := fun g => .ok g "1\n" }

/-- A block that binds a name and then fails: `exec` raises after having
added `a` to the globals dict, with no output captured. -/
def failBlk : Block :=
  { code := "a = 1\n1/0",
    run := fun g =>
      .err (aSet g "a" (Value.vint 1)) "" "ZeroDivisionError: division by zero" }

/-- A block that only fails, used for the error-memoization scenario. -/
def divBlk : Block :=
  { code := "1/0",
    run := fun g => .err g "" "ZeroDivisionError: division by zero" }

/-- A fresh executor (empty cache, zeroed stats) whose variable
environment already holds the given bindings. -/
def executorWithEnv (env : Dict) : CodeExecutor :=
  { initExecutor with «variables» := env }

/-- One cache insertion as `execute_code` performs it (lines 307-308 and
329-330): store the result under the key, then trim. -/
def cacheInsert (max_cache_size : Nat) (cache : List (CacheKey × ExecResult))
    (k : CacheKey) (v : ExecResult) : List (CacheKey × ExecResult) :=
  manage_cache_size max_cache_size (aSet cache k v)

/-- A throwaway cached result used for concrete eviction scenarios. -/
def sampleRes : ExecResult :=
  { success := true, output := "", error := "", «variables» := [],
    cache_key := CacheKey.given "", execution_time := 0, was_cached := false,
    heavy_imports := [] }

/-- 101 distinct cache keys, for the capacity-plus-one eviction scenario. -/
def c2Keys : List CacheKey :=
  (List.range 101).map fun n => CacheKey.auto "" [("k", Value.vint (Int.ofNat n))]

/-! ### Association-list (Python dict) lemmas -/

theorem aGet_aSet_self {κ α : Type} [DecidableEq κ]
    (d : List (κ × α)) (k : κ) (v : α) : aGet (aSet d k v) k = some v := by
  induction d with
  | nil => simp [aSet, aGet]
  | cons kv rest ih =>
    by_cases h : kv.1 = k
    · simp [aSet, aGet, h]
    · simp [aSet, aGet, h, ih]

theorem aSet_eq_append {κ α : Type} [DecidableEq κ]
    (d : List (κ × α)) (k : κ) (v : α) (h : aGet d k = none) :
    aSet d k v = d ++ [(k, v)] := by
  induction d with
  | nil => simp [aSet]
  | cons kv rest ih =>
    by_cases hk : kv.1 = k
    · simp [aGet, hk] at h
    · simp [aGet, hk] at h
      simp [aSet, hk, ih h]

theorem aSet_eq_self {κ α : Type} [DecidableEq κ]
    (d : List (κ × α)) (k : κ) (v : α) (h : aGet d k = some v) :
    aSet d k v = d := by
  induction d with
  | nil => simp [aGet] at h
  | cons kv rest ih =>
    obtain ⟨k1, v1⟩ := kv
    by_cases hk : k1 = k
    · subst hk
      simp [aGet] at h
      simp [aSet, h]
    · simp [aGet, hk] at h
      simp [aSet, hk, ih h]

theorem aGet_of_mem_of_nodup {κ α : Type} [DecidableEq κ]
    (d : List (κ × α)) (k : κ) (v : α)
    (hmem : (k, v) ∈ d) (hnd : (d.map Prod.fst).Nodup) :
    aGet d k = some v := by
  induction d with
  | nil => simp at hmem
  | cons kv rest ih =>
    simp only [List.map_cons, List.nodup_cons] at hnd
    rcases List.mem_cons.1 hmem with h | h
    · simp [aGet, ← h]
    · have hk : kv.1 ≠ k := by
        intro hkk
        exact hnd.1 (hkk ▸ (List.mem_map.2 ⟨(k, v), h, rfl⟩))
      simp [aGet, hk, ih h hnd.2]

theorem aUpdate_of_forall_mem {κ α : Type} [DecidableEq κ]
    (d : List (κ × α)) (l : List (κ × α))
    (h : ∀ kv ∈ l, aGet d kv.1 = some kv.2) : aUpdate d l = d := by
  induction l with
  | nil => rfl
  | cons kv rest ih =>
    have h1 : aSet d kv.1 kv.2 = d :=
      aSet_eq_self d kv.1 kv.2 (h kv (List.mem_cons_self kv rest))
    show aUpdate (aSet d kv.1 kv.2) rest = d
    rw [h1]
    exact ih fun x hx => h x (List.mem_cons_of_mem kv hx)

theorem aUpdate_self {κ α : Type} [DecidableEq κ]
    (d : List (κ × α)) (hnd : (d.map Prod.fst).Nodup) : aUpdate d d = d :=
  aUpdate_of_forall_mem d d fun kv hkv =>
    aGet_of_mem_of_nodup d kv.1 kv.2 hkv hnd

/-! ### C6: clear_cache frame effect -/

/-- C6.  `clear_cache` empties the result cache, resets the statistics to
their zeroed initial dict, clears the block-history bookkeeping and the
checkpoint store, and leaves the variable environment untouched: every
name is still bound to the same value afterwards. -/
theorem c6_clear_cache_frame (st : CodeExecutor) :
    (clear_cache st).code_cache = []
      ∧ (clear_cache st).execution_stats = initStats
      ∧ (clear_cache st).block_history = []
      ∧ (clear_cache st).variables_checkpoints = []
      ∧ ∀ name, aGet (clear_cache st).«variables» name
          = aGet st.«variables» name :=
  ⟨rfl, rfl, rfl, rfl, fun _ => rfl⟩

/-! ### C10: clear_cache deletes checkpoints -/

/-- C10.  After `clear_cache`, `restore_checkpoint i` finds no checkpoint
— even one saved just beforehand at any index `j` — so it returns `false`
and leaves the state (in particular the variable environment) unchanged. -/
theorem c10_clear_cache_deletes_checkpoints
    (st : CodeExecutor) (i j : Nat) :
    restore_checkpoint (clear_cache (save_checkpoint st j)) i
        = (false, clear_cache (save_checkpoint st j))
      ∧ (restore_checkpoint (clear_cache (save_checkpoint st j)) i).2.«variables»
        = st.«variables» :=
  ⟨rfl, rfl⟩

/-! ### C8: checkpoint round trip -/

/-- C8.  Saving a checkpoint at index `i`, mutating the environment
arbitrarily, then restoring `i` succeeds and brings every binding back
exactly as saved (the best-effort deep clone is the identity on pure
values, so the deep-copyable proviso of the claim is subsumed); restoring an
index with no saved checkpoint returns `false` and changes nothing. -/
theorem c8_checkpoint_round_trip :
    (∀ (st : CodeExecutor) (i : Nat) (mutated : Dict),
      (restore_checkpoint
          { save_checkpoint st i with «variables» := mutated } i).1 = true
        ∧ (restore_checkpoint
            { save_checkpoint st i with «variables» := mutated } i).2.«variables»
          = st.«variables»)
      ∧ ∀ (st : CodeExecutor) (j : Nat),
        aGet st.variables_checkpoints j = none →
          restore_checkpoint st j = (false, st) := by
  constructor
  · intro st i mutated
    have h : aGet (aSet st.variables_checkpoints i st.«variables») i
        = some st.«variables» := aGet_aSet_self _ _ _
    simp [restore_checkpoint, save_checkpoint, deep_copy_variables, h,
      restore_variables]
  · intro st j h
    simp [restore_checkpoint, h]

/-- Closed instance of C8: the round trip and the absent-index no-op at
concrete inputs, with the hypotheses discharged by evaluation. -/
theorem c8_checkpoint_round_trip_witness :
    ((restore_checkpoint
        { save_checkpoint initExecutor 0 with
          «variables» := [("x", Value.vint 7)] } 0).1 = true
      ∧ (restore_checkpoint
          { save_checkpoint initExecutor 0 with
            «variables» := [("x", Value.vint 7)] } 0).2.«variables» = [])
      ∧ aGet initExecutor.variables_checkpoints 1 = none
      ∧ restore_checkpoint initExecutor 1 = (false, initExecutor) :=
  ⟨c8_checkpoint_round_trip.1 initExecutor 0 [("x", Value.vint 7)], rfl,
    c8_checkpoint_round_trip.2 initExecutor 1 rfl⟩

/-! ### C9: the no-mock validation error is unreachable -/

theorem parseMockLines_length (ls : List (List Char)) :
    (parseMockLines ls).length
      = ls.countP (fun l => hasSubseq inputCallPat l) := by
  induction ls with
  | nil => rfl
  | cons line rest ih =>
    by_cases h1 : hasSubseq inputCallPat line
    · by_cases h2 : hasSubseq inputMockTag line
      · simp [parseMockLines, h1, h2, List.countP_cons, ih]
      · simp [parseMockLines, h1, h2, List.countP_cons, ih]
    · simp [parseMockLines, h1, List.countP_cons, ih]

theorem hasSubseq_of_parseMockLines_nil (ls : List (List Char))
    (h : parseMockLines ls = []) :
    ∀ l ∈ ls, hasSubseq inputCallPat l = false := by
  induction ls with
  | nil => simp
  | cons line rest ih =>
    intro l hl
    by_cases h1 : hasSubseq inputCallPat line
    · by_cases h2 : hasSubseq inputMockTag line
      · simp [parseMockLines, h1, h2] at h
      · simp [parseMockLines, h1, h2] at h
    · rw [Bool.not_eq_true] at h1
      have hrest : parseMockLines rest = [] := by
        simpa [parseMockLines, h1] using h
      rcases List.mem_cons.1 hl with rfl | hmem
      · exact h1
      · exact ih hrest l hmem

theorem inputValidationFails_eq_false (code : String) :
    inputValidationFails code = false := by
  unfold inputValidationFails
  cases hb : (parse_input_mocks code).isEmpty
  · simp [hb]
  · have hnil : parseMockLines (codeLines code) = [] :=
      List.isEmpty_iff.1 (by simpa [parse_input_mocks] using hb)
    have hline := hasSubseq_of_parseMockLines_nil (codeLines code) hnil
    have hfound : inputLineFound code = false := by
      unfold inputLineFound
      rw [List.any_eq_false]
      intro l hl
      simp [hline l hl]
    simp [hfound]

/-- C9.  The `RuntimeError` branch for a blocking-input call without a mock
value is dead code: its guard `inputValidationFails` — the literal
condition under which `execute_code` (lines 262-277) would raise — is false
for every code string, because `_parse_input_mocks` registers exactly one
(possibly empty-string) entry for every line containing the call text, so
the mock table is non-empty whenever such a line exists.  Hence
`execute_code` never raises nor returns that validation error. -/
theorem c9_input_validation_unreachable :
    (∀ code : String, inputValidationFails code = false)
      ∧ ∀ code : String,
        (parse_input_mocks code).length
          = (codeLines code).countP (fun l => hasSubseq inputCallPat l) :=
  ⟨inputValidationFails_eq_false,
    fun code => parseMockLines_length (codeLines code)⟩

/-! ### Structural lemmas about execute_code -/

theorem execute_code_of_miss (st : CodeExecutor) (blk : Block)
    (elapsed : Rat) (kOpt : Option CacheKey) (cgOpt : Option Dict)
    (h : aGet st.code_cache (computeKey st blk kOpt) = none) :
    execute_code st blk elapsed kOpt cgOpt
      = missStep st blk elapsed (computeKey st blk kOpt) cgOpt := by
  simp only [execute_code, h]

theorem execute_code_of_hit (st : CodeExecutor) (blk : Block)
    (elapsed : Rat) (kOpt : Option CacheKey) (cgOpt : Option Dict)
    (cached : ExecResult)
    (h : aGet st.code_cache (computeKey st blk kOpt) = some cached) :
    execute_code st blk elapsed kOpt cgOpt = hitStep st cached := by
  simp only [execute_code, h]

theorem missStep_of_ok (st : CodeExecutor) (blk : Block) (elapsed : Rat)
    (key : CacheKey) (cgOpt : Option Dict) (g : Dict) (out : String)
    (hrun : blk.run (mkExecGlobals st.«variables» blk.code cgOpt) = .ok g out) :
    missStep st blk elapsed key cgOpt
      = (okResult st blk elapsed key g out,
          finishMiss st (aUpdate st.«variables» (g.filter keepVar)) key
            (okResult st blk elapsed key g out) elapsed) := by
  unfold missStep
  rw [inputValidationFails_eq_false, hrun]
  simp [okResult]

theorem missStep_of_err (st : CodeExecutor) (blk : Block) (elapsed : Rat)
    (key : CacheKey) (cgOpt : Option Dict) (g : Dict) (out msg : String)
    (hrun : blk.run (mkExecGlobals st.«variables» blk.code cgOpt)
      = .err g out msg) :
    missStep st blk elapsed key cgOpt
      = (errResult st blk elapsed key out msg,
          finishMiss st st.«variables» key
            (errResult st blk elapsed key out msg) elapsed) := by
  unfold missStep
  rw [inputValidationFails_eq_false, hrun]
  simp [errResult]

theorem missStep_snd_stats (st : CodeExecutor) (blk : Block) (elapsed : Rat)
    (key : CacheKey) (cgOpt : Option Dict) :
    (missStep st blk elapsed key cgOpt).2.execution_stats
      = missStats st.execution_stats elapsed := by
  unfold missStep
  split
  · rfl
  · split <;> rfl

theorem missStep_fst_vars (st : CodeExecutor) (blk : Block) (elapsed : Rat)
    (key : CacheKey) (cgOpt : Option Dict) :
    (missStep st blk elapsed key cgOpt).1.«variables»
      = (missStep st blk elapsed key cgOpt).2.«variables» := by
  unfold missStep
  split
  · rfl
  · split <;> rfl

theorem missStep_snd_cache (st : CodeExecutor) (blk : Block) (elapsed : Rat)
    (key : CacheKey) (cgOpt : Option Dict) :
    (missStep st blk elapsed key cgOpt).2.code_cache
      = manage_cache_size st.max_cache_size
          (aSet st.code_cache key (missStep st blk elapsed key cgOpt).1) := by
  unfold missStep
  split
  · rfl
  · split <;> rfl

theorem missStep_snd_max (st : CodeExecutor) (blk : Block) (elapsed : Rat)
    (key : CacheKey) (cgOpt : Option Dict) :
    (missStep st blk elapsed key cgOpt).2.max_cache_size
      = st.max_cache_size := by
  unfold missStep
  split
  · rfl
  · split <;> rfl

/-! ### C4: the statistics average invariant -/

/-- C4, amended.  A call that misses the cache re-establishes
`average_execution_time = total_execution_time / total_executions` and adds
its elapsed time to the total; a call that hits increments
`total_executions` and `cache_hits` but leaves `total_execution_time` and
`average_execution_time` unchanged — the average is recomputed only on
misses, so the claimed invariant can fail after a trailing hit. -/
theorem c4_stats_average_invariant :
    (∀ (st : CodeExecutor) (blk : Block) (elapsed : Rat)
        (kOpt : Option CacheKey) (cgOpt : Option Dict),
      aGet st.code_cache (computeKey st blk kOpt) = none →
        (execute_code st blk elapsed kOpt cgOpt).2.execution_stats.average_execution_time
            = (execute_code st blk elapsed kOpt cgOpt).2.execution_stats.total_execution_time
              / ((execute_code st blk elapsed kOpt cgOpt).2.execution_stats.total_executions : Rat)
          ∧ (execute_code st blk elapsed kOpt cgOpt).2.execution_stats.total_execution_time
            = st.execution_stats.total_execution_time + elapsed
          ∧ (execute_code st blk elapsed kOpt cgOpt).2.execution_stats.total_executions
            = st.execution_stats.total_executions + 1
          ∧ (execute_code st blk elapsed kOpt cgOpt).2.execution_stats.cache_misses
            = st.execution_stats.cache_misses + 1)
      ∧ ∀ (st : CodeExecutor) (blk : Block) (elapsed : Rat)
          (kOpt : Option CacheKey) (cgOpt : Option Dict) (cached : ExecResult),
        aGet st.code_cache (computeKey st blk kOpt) = some cached →
          (execute_code st blk elapsed kOpt cgOpt).2.execution_stats.total_executions
              = st.execution_stats.total_executions + 1
            ∧ (execute_code st blk elapsed kOpt cgOpt).2.execution_stats.cache_hits
              = st.execution_stats.cache_hits + 1
            ∧ (execute_code st blk elapsed kOpt cgOpt).2.execution_stats.total_execution_time
              = st.execution_stats.total_execution_time
            ∧ (execute_code st blk elapsed kOpt cgOpt).2.execution_stats.average_execution_time
              = st.execution_stats.average_execution_time := by
  constructor
  · intro st blk elapsed kOpt cgOpt h
    rw [execute_code_of_miss st blk elapsed kOpt cgOpt h, missStep_snd_stats]
    exact ⟨rfl, rfl, rfl, rfl⟩
  · intro st blk elapsed kOpt cgOpt cached h
    rw [execute_code_of_hit st blk elapsed kOpt cgOpt cached h]
    exact ⟨rfl, rfl, rfl, rfl⟩

/-- Closed counterexample to C4 as stated: a miss taking 2 time units
followed by a hit leaves `total_executions = 2`, `total_execution_time = 2`
and `average_execution_time = 2`, so the claimed invariant
`average = total / totalExecutions` (which would demand `1`) is violated
after the hit. -/
theorem c4_stats_average_counterexample :
    ¬ ((execute_code (execute_code initExecutor printBlk 2 none none).2
          printBlk 0 none none).2.execution_stats.average_execution_time
        = (execute_code (execute_code initExecutor printBlk 2 none none).2
            printBlk 0 none none).2.execution_stats.total_execution_time
          / ((execute_code (execute_code initExecutor printBlk 2 none none).2
              printBlk 0 none none).2.execution_stats.total_executions : Rat)) := by
  have hget : aGet (execute_code initExecutor printBlk 2 none none).2.code_cache
      (computeKey (execute_code initExecutor printBlk 2 none none).2 printBlk none)
      = some (execute_code initExecutor printBlk 2 none none).1 := rfl
  intro h
  rw [execute_code_of_hit (execute_code initExecutor printBlk 2 none none).2
    printBlk 0 none none (execute_code initExecutor printBlk 2 none none).1 hget,
    execute_code_of_miss initExecutor printBlk 2 none none rfl] at h
  simp only [hitStep, hitStats, missStep_snd_stats, missStats, initExecutor,
    initStats] at h
  norm_num at h

/-- Closed instance of the amended C4 at concrete inputs: the invariant
after a concrete miss, and the unchanged average after a concrete hit. -/
theorem c4_stats_average_witness :
    (aGet initExecutor.code_cache (computeKey initExecutor printBlk none) = none
      ∧ (execute_code initExecutor printBlk 2 none none).2.execution_stats.average_execution_time
        = (execute_code initExecutor printBlk 2 none none).2.execution_stats.total_execution_time
          / ((execute_code initExecutor printBlk 2 none none).2.execution_stats.total_executions : Rat))
    ∧ (aGet (execute_code initExecutor printBlk 2 none none).2.code_cache
          (computeKey (execute_code initExecutor printBlk 2 none none).2 printBlk none)
        = some (execute_code initExecutor printBlk 2 none none).1
      ∧ (execute_code (execute_code initExecutor printBlk 2 none none).2
            printBlk 0 none none).2.execution_stats.average_execution_time
        = (execute_code initExecutor printBlk 2 none none).2.execution_stats.average_execution_time) :=
  ⟨⟨rfl, (c4_stats_average_invariant.1 initExecutor printBlk 2 none none rfl).1⟩,
    ⟨rfl,
      (c4_stats_average_invariant.2 (execute_code initExecutor printBlk 2 none none).2
        printBlk 0 none none (execute_code initExecutor printBlk 2 none none).1
        rfl).2.2.2⟩⟩

/-! ### C5: the post-state snapshot -/

/-- C5, amended.  On a miss, the post-state stored in the result is the
full variable environment at completion when the block succeeds; when the
block fails, the merge of the globals back into the environment is skipped,
so the post-state is a snapshot of the environment as it was before the
block ran — the bindings the failing block created in its globals are not
included. -/
theorem c5_poststate_snapshot :
    (∀ (st : CodeExecutor) (blk : Block) (elapsed : Rat)
        (kOpt : Option CacheKey) (cgOpt : Option Dict) (g : Dict) (out : String),
      aGet st.code_cache (computeKey st blk kOpt) = none →
      blk.run (mkExecGlobals st.«variables» blk.code cgOpt) = .ok g out →
        (execute_code st blk elapsed kOpt cgOpt).1.«variables»
            = (execute_code st blk elapsed kOpt cgOpt).2.«variables»
          ∧ (execute_code st blk elapsed kOpt cgOpt).2.«variables»
            = aUpdate st.«variables» (g.filter keepVar))
      ∧ ∀ (st : CodeExecutor) (blk : Block) (elapsed : Rat)
          (kOpt : Option CacheKey) (cgOpt : Option Dict) (g : Dict) (out msg : String),
        aGet st.code_cache (computeKey st blk kOpt) = none →
        blk.run (mkExecGlobals st.«variables» blk.code cgOpt) = .err g out msg →
          (execute_code st blk elapsed kOpt cgOpt).1.«variables» = st.«variables»
            ∧ (execute_code st blk elapsed kOpt cgOpt).2.«variables» = st.«variables» := by
  constructor
  · intro st blk elapsed kOpt cgOpt g out h hrun
    rw [execute_code_of_miss st blk elapsed kOpt cgOpt h,
      missStep_of_ok st blk elapsed _ cgOpt g out hrun]
    exact ⟨rfl, rfl⟩
  · intro st blk elapsed kOpt cgOpt g out msg h hrun
    rw [execute_code_of_miss st blk elapsed kOpt cgOpt h,
      missStep_of_err st blk elapsed _ cgOpt g out msg hrun]
    exact ⟨rfl, rfl⟩

/-- Closed counterexample to C5 as stated: `failBlk` binds `a` in its
globals before failing, yet the post-state of the returned failure result
does not contain `a` — the claim that the failure post-state reflects the
bindings created before the failing statement is false. -/
theorem c5_poststate_counterexample :
    aGet ((failBlk.run
          (mkExecGlobals initExecutor.«variables» failBlk.code none)).globalsOf) "a"
        = some (Value.vint 1)
      ∧ aGet (execute_code initExecutor failBlk 1 none none).1.«variables» "a"
        = none := by
  decide

/-- Closed instance of the amended C5 at concrete inputs: the completed
snapshot for a succeeding block and the pre-block snapshot for a failing
one, hypotheses discharged by evaluation. -/
theorem c5_poststate_witness :
    (aGet initExecutor.code_cache (computeKey initExecutor xBlk none) = none
      ∧ xBlk.run (mkExecGlobals initExecutor.«variables» xBlk.code none)
        = .ok (aSet (mkExecGlobals initExecutor.«variables» xBlk.code none)
            "x" (Value.vint 5)) ""
      ∧ (execute_code initExecutor xBlk 1 none none).1.«variables»
        = (execute_code initExecutor xBlk 1 none none).2.«variables»)
    ∧ (aGet initExecutor.code_cache (computeKey initExecutor failBlk none) = none
      ∧ failBlk.run (mkExecGlobals initExecutor.«variables» failBlk.code none)
        = .err (aSet (mkExecGlobals initExecutor.«variables» failBlk.code none)
            "a" (Value.vint 1)) "" "ZeroDivisionError: division by zero"
      ∧ (execute_code initExecutor failBlk 1 none none).1.«variables»
        = initExecutor.«variables») :=
  ⟨⟨rfl, rfl,
      (c5_poststate_snapshot.1 initExecutor xBlk 1 none none
        (aSet (mkExecGlobals initExecutor.«variables» xBlk.code none)
          "x" (Value.vint 5)) "" rfl rfl).1⟩,
    ⟨rfl, rfl,
      (c5_poststate_snapshot.2 initExecutor failBlk 1 none none
        (aSet (mkExecGlobals initExecutor.«variables» failBlk.code none)
          "a" (Value.vint 1)) "" "ZeroDivisionError: division by zero"
        rfl rfl).1⟩⟩

/-! ### Survival of a fresh insertion in the trimmed cache -/

theorem aGet_cons_none {κ α : Type} [DecidableEq κ]
    (kv : κ × α) (rest : List (κ × α)) (k : κ)
    (h : aGet (kv :: rest) k = none) : kv.1 ≠ k ∧ aGet rest k = none := by
  by_cases hk : kv.1 = k
  · obtain ⟨k1, v1⟩ := kv
    simp only at hk
    simp [aGet, hk] at h
  · obtain ⟨k1, v1⟩ := kv
    simp only at hk
    exact ⟨hk, by simpa [aGet, hk] using h⟩

theorem aGet_append_last {κ α : Type} [DecidableEq κ]
    (c : List (κ × α)) (k : κ) (v : α) (h : aGet c k = none) :
    aGet (c ++ [(k, v)]) k = some v := by
  induction c with
  | nil => simp [aGet]
  | cons kv rest ih =>
    obtain ⟨hk, hrest⟩ := aGet_cons_none kv rest k h
    simpa [aGet, hk] using ih hrest

theorem aGet_append_drop {κ α : Type} [DecidableEq κ]
    (c : List (κ × α)) (k : κ) (v : α) (n : Nat)
    (h : aGet c k = none) (hn : n ≤ c.length) :
    aGet ((c ++ [(k, v)]).drop n) k = some v := by
  induction c generalizing n with
  | nil =>
    have hzero : n = 0 := Nat.le_zero.1 hn
    subst hzero
    simp [aGet]
  | cons kv rest ih =>
    obtain ⟨hk, hrest⟩ := aGet_cons_none kv rest k h
    cases n with
    | zero =>
      rw [List.drop_zero, List.cons_append]
      simpa [aGet, hk] using aGet_append_last rest k v hrest
    | succ m =>
      rw [List.cons_append, List.drop_succ_cons]
      exact ih m hrest (Nat.succ_le_succ_iff.1 (by simpa using hn))

theorem manage_cache_size_of_le (m : Nat) (c : List (CacheKey × ExecResult))
    (h : c.length ≤ m) : manage_cache_size m c = c := by
  unfold manage_cache_size
  rw [if_neg (by omega)]

theorem aGet_manage_insert (c : List (CacheKey × ExecResult))
    (k : CacheKey) (v : ExecResult) (h : aGet c k = none) :
    aGet (manage_cache_size 100 (aSet c k v)) k = some v := by
  rw [aSet_eq_append c k v h]
  unfold manage_cache_size
  split
  next hgt =>
    apply aGet_append_drop c k v _ h
    simp only [List.length_append, List.length_cons, List.length_nil] at hgt ⊢
    omega
  next => exact aGet_append_last c k v h

/-! ### C3: failures are captured and memoized -/

/-- C3.  When evaluation fails, `execute_code` does not propagate the
exception (the model is total by mirroring the `try`/`except`): it returns
`success = false` with the error detail and the output captured before the
failure, stores that failed result in the cache under the same
snapshot-derived key a success would have used, and a second call with the
(unchanged) environment is a cache hit returning the stored failure without
re-evaluating the block. -/
theorem c3_error_memoization (st : CodeExecutor) (blk : Block)
    (e1 e2 : Rat) (g : Dict) (out msg : String)
    (hmax : st.max_cache_size = 100)
    (hmiss : aGet st.code_cache (computeKey st blk none) = none)
    (hrun : blk.run (mkExecGlobals st.«variables» blk.code none)
      = .err g out msg) :
    (execute_code st blk e1 none none).1.success = false
      ∧ (execute_code st blk e1 none none).1.error = msg
      ∧ (execute_code st blk e1 none none).1.output = out
      ∧ aGet (execute_code st blk e1 none none).2.code_cache
          (computeKey st blk none) = some (execute_code st blk e1 none none).1
      ∧ (execute_code (execute_code st blk e1 none none).2 blk e2 none none).1
        = (execute_code st blk e1 none none).1
      ∧ (execute_code (execute_code st blk e1 none none).2
            blk e2 none none).2.execution_stats.cache_hits
        = (execute_code st blk e1 none none).2.execution_stats.cache_hits + 1
      ∧ (execute_code (execute_code st blk e1 none none).2
            blk e2 none none).2.execution_stats.cache_misses
        = (execute_code st blk e1 none none).2.execution_stats.cache_misses := by
  rw [execute_code_of_miss st blk e1 none none hmiss,
    missStep_of_err st blk e1 _ none g out msg hrun]
  have hcache : aGet
      (finishMiss st st.«variables» (computeKey st blk none)
        (errResult st blk e1 (computeKey st blk none) out msg) e1).code_cache
      (computeKey st blk none)
      = some (errResult st blk e1 (computeKey st blk none) out msg) := by
    simp only [finishMiss]
    rw [hmax]
    exact aGet_manage_insert st.code_cache (computeKey st blk none) _ hmiss
  have hkey2 : computeKey
      (finishMiss st st.«variables» (computeKey st blk none)
        (errResult st blk e1 (computeKey st blk none) out msg) e1) blk none
      = computeKey st blk none := rfl
  rw [execute_code_of_hit _ blk e2 none none _ (hkey2 ▸ hcache)]
  exact ⟨rfl, rfl, rfl, hcache, rfl, rfl, rfl⟩

/-- Closed instance of C3: the division-by-zero block at concrete inputs,
hypotheses discharged by evaluation. -/
theorem c3_error_memoization_witness :
    (initExecutor.max_cache_size = 100
      ∧ aGet initExecutor.code_cache (computeKey initExecutor divBlk none) = none
      ∧ divBlk.run (mkExecGlobals initExecutor.«variables» divBlk.code none)
        = .err (mkExecGlobals initExecutor.«variables» divBlk.code none)
            "" "ZeroDivisionError: division by zero")
      ∧ (execute_code initExecutor divBlk 1 none none).1.success = false
      ∧ (execute_code (execute_code initExecutor divBlk 1 none none).2
            divBlk 1 none none).1
        = (execute_code initExecutor divBlk 1 none none).1 :=
  ⟨⟨rfl, rfl, rfl⟩,
    (c3_error_memoization initExecutor divBlk 1 1
      (mkExecGlobals initExecutor.«variables» divBlk.code none)
      "" "ZeroDivisionError: division by zero" rfl rfl rfl).1,
    (c3_error_memoization initExecutor divBlk 1 1
      (mkExecGlobals initExecutor.«variables» divBlk.code none)
      "" "ZeroDivisionError: division by zero" rfl rfl rfl).2.2.2.2.1⟩

/-! ### C1: cache hit on re-execution -/

/-- C1, amended.  The second call is a hit only when the key has not moved,
i.e. when the first call left the variable environment unchanged (the cache
key hashes the environment snapshot taken *before* an execution, so a block
that changes the environment shifts the key of the next call).  Under that
hypothesis: starting from a fresh executor the first call is a miss, the
second call is a hit that merges the cached post-state into the environment
by name-union leaving it exactly as after the first call, increments both
`cache_hits` and `total_executions`, and returns the cached result. -/
theorem c1_cache_hit_on_unchanged_env (env : Dict) (blk : Block) (e1 e2 : Rat)
    (hnodup : (env.map Prod.fst).Nodup)
    (henv : (execute_code (executorWithEnv env) blk e1 none none).2.«variables»
      = env) :
    (execute_code (executorWithEnv env) blk e1 none none).2.execution_stats.cache_misses = 1
      ∧ (execute_code (executorWithEnv env) blk e1 none none).2.execution_stats.cache_hits = 0
      ∧ (execute_code (execute_code (executorWithEnv env) blk e1 none none).2
            blk e2 none none).1
        = (execute_code (executorWithEnv env) blk e1 none none).1
      ∧ (execute_code (execute_code (executorWithEnv env) blk e1 none none).2
            blk e2 none none).2.«variables»
        = (execute_code (executorWithEnv env) blk e1 none none).2.«variables»
      ∧ (execute_code (execute_code (executorWithEnv env) blk e1 none none).2
            blk e2 none none).2.execution_stats.cache_hits
        = (execute_code (executorWithEnv env) blk e1 none none).2.execution_stats.cache_hits + 1
      ∧ (execute_code (execute_code (executorWithEnv env) blk e1 none none).2
            blk e2 none none).2.execution_stats.total_executions
        = (execute_code (executorWithEnv env) blk e1 none none).2.execution_stats.total_executions + 1 := by
  have hm : aGet (executorWithEnv env).code_cache
      (computeKey (executorWithEnv env) blk none) = none := rfl
  rw [execute_code_of_miss (executorWithEnv env) blk e1 none none hm] at henv ⊢
  have hr1vars : (missStep (executorWithEnv env) blk e1
        (computeKey (executorWithEnv env) blk none) none).1.«variables»
      = (missStep (executorWithEnv env) blk e1
        (computeKey (executorWithEnv env) blk none) none).2.«variables» :=
    missStep_fst_vars _ _ _ _ _
  have hcache1 : (missStep (executorWithEnv env) blk e1
        (computeKey (executorWithEnv env) blk none) none).2.code_cache
      = [(computeKey (executorWithEnv env) blk none,
          (missStep (executorWithEnv env) blk e1
            (computeKey (executorWithEnv env) blk none) none).1)] := by
    rw [missStep_snd_cache]
    rfl
  have hkey2 : computeKey (missStep (executorWithEnv env) blk e1
        (computeKey (executorWithEnv env) blk none) none).2 blk none
      = computeKey (executorWithEnv env) blk none := by
    show get_code_hash blk.code (get_variable_snapshot _) = _
    rw [henv]
    rfl
  have hhit : aGet (missStep (executorWithEnv env) blk e1
        (computeKey (executorWithEnv env) blk none) none).2.code_cache
      (computeKey (missStep (executorWithEnv env) blk e1
        (computeKey (executorWithEnv env) blk none) none).2 blk none)
      = some (missStep (executorWithEnv env) blk e1
          (computeKey (executorWithEnv env) blk none) none).1 := by
    rw [hkey2, hcache1]
    simp [aGet]
  rw [execute_code_of_hit _ blk e2 none none _ hhit]
  refine ⟨by rw [missStep_snd_stats]; rfl, by rw [missStep_snd_stats]; rfl,
    rfl, ?_, rfl, rfl⟩
  show aUpdate (missStep (executorWithEnv env) blk e1
      (computeKey (executorWithEnv env) blk none) none).2.«variables»
      (missStep (executorWithEnv env) blk e1
        (computeKey (executorWithEnv env) blk none) none).1.«variables»
    = (missStep (executorWithEnv env) blk e1
        (computeKey (executorWithEnv env) blk none) none).2.«variables»
  rw [hr1vars, henv]
  exact aUpdate_self env hnodup

/-- Closed counterexample to C1 as stated: for the block `x = 5` from an
empty environment, the first call changes the environment, so the second
call hashes a different snapshot, misses, and `cache_hits` stays 0 instead
of being incremented — re-executing unchanged text is not in general a hit
on the second call. -/
theorem c1_second_call_counterexample :
    ¬ ((execute_code (execute_code initExecutor xBlk 1 none none).2
          xBlk 1 none none).2.execution_stats.cache_hits
        = (execute_code initExecutor xBlk 1 none none).2.execution_stats.cache_hits
          + 1) := by
  decide

/-- Closed instance of the amended C1: a pure-output block at concrete
inputs, hypotheses discharged by evaluation. -/
theorem c1_cache_hit_witness :
    ((([] : Dict).map Prod.fst).Nodup
      ∧ (execute_code (executorWithEnv []) printBlk 1 none none).2.«variables» = [])
      ∧ (execute_code (executorWithEnv []) printBlk 1 none none).2.execution_stats.cache_misses = 1
      ∧ (execute_code (execute_code (executorWithEnv []) printBlk 1 none none).2
            printBlk 1 none none).1
        = (execute_code (executorWithEnv []) printBlk 1 none none).1
      ∧ (execute_code (execute_code (executorWithEnv []) printBlk 1 none none).2
            printBlk 1 none none).2.execution_stats.cache_hits
        = (execute_code (executorWithEnv []) printBlk 1 none none).2.execution_stats.cache_hits + 1 :=
  ⟨⟨List.nodup_nil, rfl⟩,
    (c1_cache_hit_on_unchanged_env [] printBlk 1 1 List.nodup_nil rfl).1,
    (c1_cache_hit_on_unchanged_env [] printBlk 1 1 List.nodup_nil rfl).2.2.1,
    (c1_cache_hit_on_unchanged_env [] printBlk 1 1 List.nodup_nil rfl).2.2.2.2.1⟩

/-! ### C7: order-independence of the snapshot hash -/

theorem sorted_itemLt_of_nodup (l : List (String × Value))
    (hs : l.Sorted itemLe) (hnd : (l.map Prod.fst).Nodup) :
    l.Sorted itemLt := by
  have hne : l.Pairwise fun a b : String × Value => a.1 ≠ b.1 :=
    (List.pairwise_map).1 hnd
  exact (hs.and hne).imp fun h => lt_of_le_of_ne h.1 h.2

theorem sortItems_perm_eq (d1 d2 : Dict) (hperm : d1.Perm d2)
    (hnd : (d1.map Prod.fst).Nodup) : sortItems d1 = sortItems d2 := by
  have hp1 : (sortItems d1).Perm d1 := List.perm_insertionSort itemLe d1
  have hp2 : (sortItems d2).Perm d2 := List.perm_insertionSort itemLe d2
  have hp : (sortItems d1).Perm (sortItems d2) :=
    hp1.trans (hperm.trans hp2.symm)
  have hnd2 : (d2.map Prod.fst).Nodup := ((hperm.map Prod.fst).nodup_iff).1 hnd
  have hnds1 : ((sortItems d1).map Prod.fst).Nodup :=
    ((hp1.map Prod.fst).nodup_iff).2 hnd
  have hnds2 : ((sortItems d2).map Prod.fst).Nodup :=
    ((hp2.map Prod.fst).nodup_iff).2 hnd2
  exact List.eq_of_perm_of_sorted hp
    (sorted_itemLt_of_nodup _ (List.sorted_insertionSort itemLe d1) hnds1)
    (sorted_itemLt_of_nodup _ (List.sorted_insertionSort itemLe d2) hnds2)

/-- C7.  The snapshot feeding the cache-key hash drops (without raising)
every binding whose value fails best-effort stringification, and the hash
input is sorted by name: two environments holding the same name-to-value
pairs in any insertion order produce the identical cache key, and appending
a binding whose value cannot stringify leaves the key unchanged. -/
theorem c7_snapshot_key_invariance :
    (∀ (code : String) (env1 env2 : Dict),
      env1.Perm env2 → (env1.map Prod.fst).Nodup →
        get_code_hash code (get_variable_snapshot env1)
          = get_code_hash code (get_variable_snapshot env2))
      ∧ ∀ (code : String) (env : Dict) (name : String) (oid : Nat),
        get_code_hash code
            (get_variable_snapshot (env ++ [(name, Value.vobj oid false)]))
          = get_code_hash code (get_variable_snapshot env) := by
  constructor
  · intro code env1 env2 hperm hnd
    unfold get_code_hash
    have hndf : ((get_variable_snapshot env1).map Prod.fst).Nodup :=
      hnd.sublist ((List.filter_sublist env1).map Prod.fst)
    rw [sortItems_perm_eq (get_variable_snapshot env1)
      (get_variable_snapshot env2) (hperm.filter _) hndf]
  · intro code env name oid
    unfold get_code_hash get_variable_snapshot
    rw [List.filter_append]
    simp [Value.strOk]

/-- Closed instance of C7: two two-binding environments in opposite
insertion orders hash to the same key, hypotheses discharged by
evaluation. -/
theorem c7_snapshot_key_witness :
    ([("b", Value.vint 2), ("a", Value.vint 1)] : Dict).Perm
        [("a", Value.vint 1), ("b", Value.vint 2)]
      ∧ (([("b", Value.vint 2), ("a", Value.vint 1)] : Dict).map Prod.fst).Nodup
      ∧ get_code_hash "y = a + b"
          (get_variable_snapshot [("b", Value.vint 2), ("a", Value.vint 1)])
        = get_code_hash "y = a + b"
          (get_variable_snapshot [("a", Value.vint 1), ("b", Value.vint 2)]) :=
  ⟨by decide, by decide,
    c7_snapshot_key_invariance.1 "y = a + b"
      [("b", Value.vint 2), ("a", Value.vint 1)]
      [("a", Value.vint 1), ("b", Value.vint 2)] (by decide) (by decide)⟩

/-! ### C2: FIFO eviction -/

theorem aGet_append_none {κ α : Type} [DecidableEq κ]
    (c : List (κ × α)) (l : List (κ × α)) (k : κ) (h : aGet c k = none) :
    aGet (c ++ l) k = aGet l k := by
  induction c with
  | nil => rfl
  | cons kv rest ih =>
    obtain ⟨hk, hrest⟩ := aGet_cons_none kv rest k h
    simpa [aGet, hk] using ih hrest

theorem aGet_map_pair_none (ks : List CacheKey) (f : CacheKey → ExecResult)
    (k : CacheKey) (h : k ∉ ks) :
    aGet (ks.map fun x => (x, f x)) k = none := by
  induction ks with
  | nil => rfl
  | cons a t ih =>
    have hne : a ≠ k := fun he => h (he ▸ List.mem_cons_self a t)
    simp only [List.map_cons, aGet, if_neg hne]
    exact ih fun hm => h (List.mem_cons_of_mem a hm)

theorem foldl_cacheInsert_fresh (f : CacheKey → ExecResult)
    (ks : List CacheKey) :
    ∀ c : List (CacheKey × ExecResult),
      ks.Nodup → (∀ k ∈ ks, aGet c k = none) → c.length + ks.length ≤ 100 →
      ks.foldl (fun acc k => cacheInsert 100 acc k (f k)) c
        = c ++ (ks.map fun k => (k, f k)) := by
  induction ks with
  | nil => intro c _ _ _; simp
  | cons k rest ih =>
    intro c hnd hfresh hlen
    have hk : aGet c k = none := hfresh k (List.mem_cons_self k rest)
    have hstep : cacheInsert 100 c k (f k) = c ++ [(k, f k)] := by
      unfold cacheInsert
      rw [aSet_eq_append c k (f k) hk]
      refine manage_cache_size_of_le 100 _ ?_
      simp only [List.length_append, List.length_cons, List.length_nil]
      simp only [List.length_cons] at hlen
      omega
    rw [List.foldl_cons, hstep,
      ih (c ++ [(k, f k)]) (List.nodup_cons.1 hnd).2 ?fresh ?len]
    · simp
    case fresh =>
      intro k2 hk2
      have hne : k ≠ k2 := by
        rintro rfl
        exact (List.nodup_cons.1 hnd).1 hk2
      rw [aGet_append_none c _ k2 (hfresh k2 (List.mem_cons_of_mem k hk2))]
      simp [aGet, hne]
    case len =>
      simp only [List.length_append, List.length_cons, List.length_nil]
      simp only [List.length_cons] at hlen
      omega

theorem fifo_insert_fold (ks : List CacheKey) (f : CacheKey → ExecResult)
    (hnd : ks.Nodup) (hlen : ks.length = 101) :
    ks.foldl (fun c k => cacheInsert 100 c k (f k)) []
      = (ks.map fun k => (k, f k)).drop 51 := by
  obtain ⟨klast, hklast⟩ : ∃ k, ks.drop 100 = [k] := by
    have hdl : (ks.drop 100).length = 1 := by rw [List.length_drop, hlen]
    cases hd : ks.drop 100 with
    | nil => rw [hd] at hdl; simp at hdl
    | cons a t =>
      cases t with
      | nil => exact ⟨a, rfl⟩
      | cons b t2 => rw [hd] at hdl; simp at hdl
  have htake : (ks.take 100).length = 100 := by
    rw [List.length_take, hlen]
    exact Nat.min_eq_left (by omega)
  have hndA : (ks.take 100).Nodup := hnd.sublist (List.take_sublist 100 ks)
  have hsplit : ks.take 100 ++ [klast] = ks := by
    rw [← hklast, List.take_append_drop]
  have hndfull : (ks.take 100 ++ [klast]).Nodup := by
    rw [hsplit]; exact hnd
  have hnotmem : klast ∉ ks.take 100 := by
    have hdisj := (List.nodup_append.1 hndfull).2.2
    intro hmem
    exact hdisj hmem (List.mem_singleton.2 rfl)
  have hA : (ks.take 100).foldl (fun c k => cacheInsert 100 c k (f k)) []
      = ((ks.take 100).map fun k => (k, f k)) := by
    simpa using foldl_cacheInsert_fresh f (ks.take 100) [] hndA
      (fun _ _ => rfl)
      (by simp only [List.length_nil, Nat.zero_add, htake, le_refl])
  have hcalc : ks.foldl (fun c k => cacheInsert 100 c k (f k)) []
      = cacheInsert 100 ((ks.take 100).map fun k => (k, f k)) klast (f klast) := by
    conv_lhs => rw [← hsplit]
    rw [List.foldl_append, hA]
    rfl
  rw [hcalc]
  have hget : aGet ((ks.take 100).map fun k => (k, f k)) klast = none :=
    aGet_map_pair_none _ f klast hnotmem
  unfold cacheInsert
  rw [aSet_eq_append _ _ _ hget]
  have hmaps : ((ks.take 100).map fun k => (k, f k)) ++ [(klast, f klast)]
      = ks.map fun k => (k, f k) := by
    conv_rhs => rw [← hsplit]
    rw [List.map_append]
    rfl
  rw [hmaps]
  unfold manage_cache_size
  rw [if_pos (by rw [List.length_map, hlen]; omega)]
  congr 1
  rw [List.length_map, hlen]

/-- C2, amended.  Starting from an empty cache of capacity 100, inserting
101 distinct keys in order triggers one trim that removes the oldest 51
entries in insertion order, leaving exactly the newest 50 = capacity/2
keys (not ⌈capacity/2⌉+1 = 51 as claimed); and a cache hit does not modify
the cache at all, so intervening hits on early keys change nothing about
which keys are evicted. -/
theorem c2_fifo_eviction :
    (∀ (ks : List CacheKey) (f : CacheKey → ExecResult),
      ks.Nodup → ks.length = 101 →
        ks.foldl (fun c k => cacheInsert 100 c k (f k)) []
          = (ks.map fun k => (k, f k)).drop 51)
      ∧ ∀ (st : CodeExecutor) (blk : Block) (elapsed : Rat)
          (kOpt : Option CacheKey) (cgOpt : Option Dict) (cached : ExecResult),
        aGet st.code_cache (computeKey st blk kOpt) = some cached →
          (execute_code st blk elapsed kOpt cgOpt).2.code_cache
            = st.code_cache := by
  constructor
  · exact fun ks f hnd hlen => fifo_insert_fold ks f hnd hlen
  · intro st blk elapsed kOpt cgOpt cached h
    rw [execute_code_of_hit st blk elapsed kOpt cgOpt cached h]
    rfl

theorem c2Keys_nodup : c2Keys.Nodup := by
  refine List.Nodup.map ?_ (List.nodup_range 101)
  intro a b hab
  simpa using hab

/-- Closed counterexample to C2 as stated: with 101 distinct concrete keys
the surviving key list is the newest 50 (`drop 51`), not the newest 51
(`drop 50`) the claim predicts — the lists differ already in length. -/
theorem c2_fifo_counterexample :
    ¬ ((c2Keys.foldl (fun c k => cacheInsert 100 c k sampleRes) []).map Prod.fst
        = c2Keys.drop 50) := by
  intro hclaim
  have h : c2Keys.foldl (fun c k => cacheInsert 100 c k sampleRes) []
      = (c2Keys.map fun k => (k, sampleRes)).drop 51 :=
    fifo_insert_fold c2Keys (fun _ => sampleRes) c2Keys_nodup
      (by simp [c2Keys])
  rw [h] at hclaim
  have h1 : (((c2Keys.map fun k => (k, sampleRes)).drop 51).map Prod.fst).length
      = 50 := by simp [c2Keys]
  have h2 : (c2Keys.drop 50).length = 51 := by simp [c2Keys]
  rw [hclaim, h2] at h1
  omega

/-- Closed instance of the amended C2: the 101-key eviction scenario at
concrete keys, and a concrete hit leaving the cache untouched, hypotheses
discharged by evaluation or explicit terms. -/
theorem c2_fifo_eviction_witness :
    c2Keys.Nodup ∧ c2Keys.length = 101
      ∧ c2Keys.foldl (fun c k => cacheInsert 100 c k sampleRes) []
        = (c2Keys.map fun k => (k, sampleRes)).drop 51
      ∧ aGet (execute_code initExecutor printBlk 2 none none).2.code_cache
          (computeKey (execute_code initExecutor printBlk 2 none none).2
            printBlk none)
        = some (execute_code initExecutor printBlk 2 none none).1
      ∧ (execute_code (execute_code initExecutor printBlk 2 none none).2
            printBlk 0 none none).2.code_cache
        = (execute_code initExecutor printBlk 2 none none).2.code_cache :=
  ⟨c2Keys_nodup, by simp [c2Keys],
    c2_fifo_eviction.1 c2Keys (fun _ => sampleRes) c2Keys_nodup
      (by simp [c2Keys]),
    rfl,
    c2_fifo_eviction.2 (execute_code initExecutor printBlk 2 none none).2
      printBlk 0 none none (execute_code initExecutor printBlk 2 none none).1
      rfl⟩

end PyMD
